import Mathlib

/-!
Shallow embedding of the auto-commit offset registry (`src/commit.rs` of
the rust-rdkafka auto-commit branch).

The registry accumulates the latest consumed offset per (topic, partition),
flushes on a time gate, and issues a final commit from its `Drop` impl.
Time is modelled as `Nat` instants (Rust `Instant` is monotone, so every
recorded `last_commit_time` is ≤ any later `now`); `Duration` is a `Nat`.
The network `commit` call of the consumer is modelled by an oracle argument
giving the `KafkaResult` that call returns; each operation returns, besides
the new registry state, the list of externally visible events it caused
(consumer commit calls and observer-callback invocations), in order.
-/

namespace AutoCommit

/-- Rust `CommitMode` enum of the consumer interface (`Sync` / `Async`). -/
inductive CommitMode where
  | Sync : CommitMode
  | Async : CommitMode
deriving DecidableEq

/-- Abstract broker/transport error surfaced by the underlying commit call. -/
structure KafkaError where
  code : Nat
deriving DecidableEq

/-- Rust `KafkaResult<()>`: success or a broker error, passed through unmodified. -/
inductive KafkaResult where
  | ok : KafkaResult
  | err : KafkaError → KafkaResult
deriving DecidableEq

/-- Rust `OffsetMap = HashMap<(String, i32), i64>`, modelled as an association
list whose keys are kept unique by the insert operation. -/
abbrev OffsetMap := List ((String × Int) × Int)

/-- The `TopicPartitionList` as built by `add_topic_with_partitions_and_offsets`:
a list of topics, each with its list of (partition, offset) pairs. -/
abbrev TopicPartitionList := List (String × List (Int × Int))

/-- Rust `HashMap::insert`: overwrite the value of an existing key, otherwise add
the new entry. -/
def mapInsert (m : OffsetMap) (k : String × Int) (v : Int) : OffsetMap :=
  if m.any (fun e => e.1 == k) then
    m.map (fun e => if e.1 == k then (k, v) else e)
  else
    m ++ [(k, v)]

/-- One step of the grouping loop of `offset_map_to_tpl`:
`groups.entry(topic).or_insert(Vec::new()).push((partition, offset))`. -/
def addEntry (gs : TopicPartitionList) (e : (String × Int) × Int) :
    TopicPartitionList :=
  if gs.any (fun g => g.1 == e.1.1) then
    gs.map (fun g => if g.1 == e.1.1 then (g.1, g.2 ++ [(e.1.2, e.2)]) else g)
  else
    gs ++ [(e.1.1, [(e.1.2, e.2)])]

/-- Function `offset_map_to_tpl`: group the entries of the map by topic and emit each topic
with its partition/offset pairs. -/
def offset_map_to_tpl (m : OffsetMap) : TopicPartitionList :=
  m.foldl addEntry []

/-- Flatten a `TopicPartitionList` back to its (topic, partition, offset)
triples. -/
def tplFlatten (tpl : TopicPartitionList) : List (String × Int × Int) :=
  tpl.bind (fun g => g.2.map (fun p => (g.1, p.1, p.2)))

/-- Struct `AutoCommitRegistryInner`: the mutex-protected state (offset map, instant
of the last flush trigger, optional observer callback).  Callbacks are opaque
closures; we model the stored callback by an identifier. -/
structure AutoCommitRegistryInner where
  offsets : OffsetMap
  last_commit_time : Nat
  callback : Option Nat
deriving DecidableEq

/-- Struct `AutoCommitRegistry`: one handle, holding the shared inner state plus the
immutable commit interval and mode.  (The consumer handle itself is modelled
by the commit-result oracle passed to each operation.) -/
structure AutoCommitRegistry where
  inner : AutoCommitRegistryInner
  commit_interval : Nat
  commit_mode : CommitMode
deriving DecidableEq

/-- Externally visible side effects of a registry operation, in order:
a `consumer.commit(tpl, mode)` call returning `result`, or an invocation of
the stored observer callback with the offset map and the commit result. -/
inductive Event where
  | consumerCommit : TopicPartitionList → CommitMode → KafkaResult → Event
  | observerCall : Nat → OffsetMap → KafkaResult → Event
deriving DecidableEq

/-- The commit result an event carries. -/
def eventResult : Event → KafkaResult
  | Event.consumerCommit _ _ r => r
  | Event.observerCall _ _ r => r

def isConsumerCommit : Event → Bool
  | Event.consumerCommit _ _ _ => true
  | Event.observerCall _ _ _ => false

def isObserverCall : Event → Bool
  | Event.consumerCommit _ _ _ => false
  | Event.observerCall _ _ _ => true

/-- Number of consumer commit calls among the events. -/
def commitEventCount (evs : List Event) : Nat :=
  (evs.filter isConsumerCommit).length

/-- Number of observer-callback invocations among the events. -/
def observerCallCount (evs : List Event) : Nat :=
  (evs.filter isObserverCall).length

/-- The timer check of the scheduler: `now.duration_since(last_commit_time) >=
commit_interval` (`Instant` is monotone, so the subtraction is exact). -/
def shouldFlush (commit_interval last_commit_time now : Nat) : Bool :=
  commit_interval ≤ now - last_commit_time

/-- Constructor `AutoCommitRegistry::new`: empty map, `last_commit_time = Instant::now()`
(the construction instant `t0`), no callback. -/
def AutoCommitRegistry.new (commit_interval : Nat) (commit_mode : CommitMode)
    (t0 : Nat) : AutoCommitRegistry :=
  { inner := { offsets := [], last_commit_time := t0, callback := none },
    commit_interval := commit_interval,
    commit_mode := commit_mode }

/-- Method `set_callback`: store the new observer, replacing any previous one. -/
def set_callback (reg : AutoCommitRegistry) (cb : Nat) : AutoCommitRegistry :=
  { reg with inner := { reg.inner with callback := some cb } }

/-- Method `maybe_commit`: if the timer check fires, reset `last_commit_time` to
`now`, issue the consumer commit with the translated map, and, when a
callback is stored, invoke it with the offset map and the commit result. -/
def maybe_commit (reg : AutoCommitRegistry) (now : Nat) (oracle : KafkaResult) :
    AutoCommitRegistry × List Event :=
  let inner := reg.inner
  if shouldFlush reg.commit_interval inner.last_commit_time now then
    let result := oracle
    let commitEv :=
      Event.consumerCommit (offset_map_to_tpl inner.offsets) reg.commit_mode result
    let inner2 := { inner with last_commit_time := now }
    match inner.callback with
    | some cb =>
        ({ reg with inner := inner2 },
         [commitEv, Event.observerCall cb inner.offsets result])
    | none => ({ reg with inner := inner2 }, [commitEv])
  else
    (reg, [])

/-- Method `register_message`: insert the offset of the message under its (topic,
partition) key, then run `maybe_commit`. -/
def register_message (reg : AutoCommitRegistry) (message_id : String × Int × Int)
    (now : Nat) (oracle : KafkaResult) : AutoCommitRegistry × List Event :=
  let reg1 := { reg with inner := { reg.inner with
      offsets := mapInsert reg.inner.offsets (message_id.1, message_id.2.1)
        message_id.2.2 } }
  maybe_commit reg1 now oracle

/-- Explicit `commit`: unconditionally reset `last_commit_time` to now, issue
the consumer commit, and return its result to the caller (no observer call). -/
def commit (reg : AutoCommitRegistry) (now : Nat) (oracle : KafkaResult) :
    (AutoCommitRegistry × List Event) × KafkaResult :=
  let inner := reg.inner
  let inner2 := { inner with last_commit_time := now }
  (({ reg with inner := inner2 },
    [Event.consumerCommit (offset_map_to_tpl inner.offsets) reg.commit_mode oracle]),
   oracle)

/-- Method `Drop::drop` of one handle: `let _ = self.commit();` — the commit result
is discarded. -/
def dropHandle (reg : AutoCommitRegistry) (now : Nat) (oracle : KafkaResult) :
    AutoCommitRegistry × List Event :=
  (commit reg now oracle).1

/-- Dropping `n` handle clones of the same registry: the `Drop` impl of each clone
runs on the shared state, accumulating the events in order. -/
def dropAllHandles (reg : AutoCommitRegistry) (n : Nat) (now : Nat)
    (oracle : KafkaResult) : AutoCommitRegistry × List Event :=
  match n with
  | 0 => (reg, [])
  | Nat.succ k =>
      let step := dropHandle reg now oracle
      let rest := dropAllHandles step.1 k now oracle
      (rest.1, step.2 ++ rest.2)

/-- The map invariant: at most one entry per (topic, partition) key. -/
def keysUnique (m : OffsetMap) : Prop :=
  (m.map Prod.fst).Nodup

/-! ### Lemmas about the map/TPL translation -/

theorem tplFlatten_nil : tplFlatten [] = [] := rfl

theorem tplFlatten_cons (g : String × List (Int × Int)) (l : TopicPartitionList) :
    tplFlatten (g :: l) =
      g.2.map (fun p => (g.1, p.1, p.2)) ++ tplFlatten l := by
  simp [tplFlatten]

theorem mem_tplFlatten_bump (gs : TopicPartitionList) (t : String)
    (pe : Int × Int) (x : String × Int × Int)
    (h : gs.any (fun g => g.1 == t) = true) :
    x ∈ tplFlatten (gs.map (fun g => if g.1 == t then (g.1, g.2 ++ [pe]) else g)) ↔
      x ∈ tplFlatten gs ∨ x = (t, pe.1, pe.2) := by
  induction gs with
  | nil => simp at h
  | cons g gs ih =>
      simp only [List.any_cons, Bool.or_eq_true, beq_iff_eq] at h
      by_cases hg : g.1 = t
      · subst hg
        have hfg : (if (g.1 == g.1) then (g.1, g.2 ++ [pe]) else g) =
            (g.1, g.2 ++ [pe]) := by simp
        by_cases htail : gs.any (fun g2 => g2.1 == g.1) = true
        · have ih2 := ih htail
          simp only [List.map_cons, hfg, tplFlatten_cons, List.mem_append,
            List.map_append, List.map_cons, List.map_nil, List.mem_singleton] at ih2 ⊢
          rw [ih2]
          tauto
        · have hmap : gs.map
              (fun g2 => if g2.1 == g.1 then (g2.1, g2.2 ++ [pe]) else g2) = gs := by
            have hid : ∀ g2 ∈ gs,
                (if g2.1 == g.1 then (g2.1, g2.2 ++ [pe]) else g2) = g2 := by
              intro g2 hg2
              have hne : ¬ (g2.1 == g.1) = true := by
                intro hbe
                exact htail (List.any_eq_true.mpr ⟨g2, hg2, hbe⟩)
              simp [hne]
            calc gs.map (fun g2 => if g2.1 == g.1 then (g2.1, g2.2 ++ [pe]) else g2)
                = gs.map id := List.map_congr_left hid
              _ = gs := List.map_id gs
          simp only [List.map_cons, hfg, hmap, tplFlatten_cons, List.mem_append,
            List.map_append, List.map_cons, List.map_nil, List.mem_singleton]
          tauto
      · have hfg : (if (g.1 == t) then (g.1, g.2 ++ [pe]) else g) = g := by
          simp [hg]
        have htail : gs.any (fun g2 => g2.1 == t) = true := by
          rcases h with h | h
          · exact absurd h hg
          · exact h
        have ih2 := ih htail
        simp only [List.map_cons, hfg, tplFlatten_cons, List.mem_append] at ih2 ⊢
        rw [ih2]
        tauto

theorem mem_tplFlatten_addEntry (gs : TopicPartitionList)
    (e : (String × Int) × Int) (x : String × Int × Int) :
    x ∈ tplFlatten (addEntry gs e) ↔
      x ∈ tplFlatten gs ∨ x = (e.1.1, e.1.2, e.2) := by
  unfold addEntry
  by_cases hany : gs.any (fun g => g.1 == e.1.1) = true
  · rw [if_pos hany]
    exact mem_tplFlatten_bump gs e.1.1 (e.1.2, e.2) x hany
  · rw [if_neg hany]
    simp [tplFlatten]

theorem mem_tplFlatten_foldl (m : OffsetMap) (gs : TopicPartitionList)
    (x : String × Int × Int) :
    x ∈ tplFlatten (m.foldl addEntry gs) ↔
      x ∈ tplFlatten gs ∨ ∃ e ∈ m, x = (e.1.1, e.1.2, e.2) := by
  induction m generalizing gs with
  | nil => simp
  | cons e m ih =>
      simp only [List.foldl_cons]
      rw [ih, mem_tplFlatten_addEntry]
      simp only [List.mem_cons]
      constructor
      · rintro ((hx | hx) | ⟨e2, he2, hx⟩)
        · exact Or.inl hx
        · exact Or.inr ⟨e, Or.inl rfl, hx⟩
        · exact Or.inr ⟨e2, Or.inr he2, hx⟩
      · rintro (hx | ⟨e2, (rfl | he2), hx⟩)
        · exact Or.inl (Or.inl hx)
        · exact Or.inl (Or.inr hx)
        · exact Or.inr ⟨e2, he2, hx⟩

/-! ### Case-analysis lemmas for `maybe_commit` -/

theorem maybe_commit_eq_due_some (reg : AutoCommitRegistry) (now : Nat)
    (oracle : KafkaResult) (cb : Nat)
    (h : shouldFlush reg.commit_interval reg.inner.last_commit_time now = true)
    (hcb : reg.inner.callback = some cb) :
    maybe_commit reg now oracle =
      ({ reg with inner := { reg.inner with last_commit_time := now } },
       [Event.consumerCommit (offset_map_to_tpl reg.inner.offsets)
          reg.commit_mode oracle,
        Event.observerCall cb reg.inner.offsets oracle]) := by
  simp [maybe_commit, h, hcb]

theorem maybe_commit_eq_due_none (reg : AutoCommitRegistry) (now : Nat)
    (oracle : KafkaResult)
    (h : shouldFlush reg.commit_interval reg.inner.last_commit_time now = true)
    (hcb : reg.inner.callback = none) :
    maybe_commit reg now oracle =
      ({ reg with inner := { reg.inner with last_commit_time := now } },
       [Event.consumerCommit (offset_map_to_tpl reg.inner.offsets)
          reg.commit_mode oracle]) := by
  simp [maybe_commit, h, hcb]

theorem maybe_commit_eq_not_due (reg : AutoCommitRegistry) (now : Nat)
    (oracle : KafkaResult)
    (h : shouldFlush reg.commit_interval reg.inner.last_commit_time now = false) :
    maybe_commit reg now oracle = (reg, []) := by
  simp [maybe_commit, h]

theorem maybe_commit_due_count (reg : AutoCommitRegistry) (now : Nat)
    (oracle : KafkaResult)
    (h : shouldFlush reg.commit_interval reg.inner.last_commit_time now = true) :
    (maybe_commit reg now oracle).1 =
      { reg with inner := { reg.inner with last_commit_time := now } } ∧
    commitEventCount (maybe_commit reg now oracle).2 = 1 := by
  cases hcb : reg.inner.callback with
  | none => rw [maybe_commit_eq_due_none reg now oracle h hcb]; exact ⟨rfl, rfl⟩
  | some cb => rw [maybe_commit_eq_due_some reg now oracle cb h hcb]; exact ⟨rfl, rfl⟩

theorem maybe_commit_frame (reg : AutoCommitRegistry) (now : Nat)
    (oracle : KafkaResult) :
    (maybe_commit reg now oracle).1.inner.offsets = reg.inner.offsets ∧
    (maybe_commit reg now oracle).1.inner.callback = reg.inner.callback ∧
    (maybe_commit reg now oracle).1.commit_interval = reg.commit_interval ∧
    (maybe_commit reg now oracle).1.commit_mode = reg.commit_mode := by
  by_cases hs : shouldFlush reg.commit_interval reg.inner.last_commit_time now = true
  · rw [(maybe_commit_due_count reg now oracle hs).1]
    exact ⟨rfl, rfl, rfl, rfl⟩
  · rw [Bool.not_eq_true] at hs
    rw [maybe_commit_eq_not_due reg now oracle hs]
    exact ⟨rfl, rfl, rfl, rfl⟩

theorem register_message_offsets (reg : AutoCommitRegistry)
    (mid : String × Int × Int) (now : Nat) (oracle : KafkaResult) :
    (register_message reg mid now oracle).1.inner.offsets =
      mapInsert reg.inner.offsets (mid.1, mid.2.1) mid.2.2 := by
  unfold register_message
  exact (maybe_commit_frame _ now oracle).1

/-! ### Claim theorems -/

/-- Claim C3: translating any offset map to the partition-offset store and
flattening the store back yields exactly the set of (topic, partition,
offset) triples of the original map — a membership equivalence, hence
independent of the iteration order of the map — and the empty map translates to
an empty store. -/
theorem offset_map_to_tpl_roundtrip (m : OffsetMap) (t : String) (p o : Int) :
    ((t, p, o) ∈ tplFlatten (offset_map_to_tpl m) ↔ ((t, p), o) ∈ m) ∧
    offset_map_to_tpl ([] : OffsetMap) = [] := by
  refine ⟨?_, rfl⟩
  unfold offset_map_to_tpl
  rw [mem_tplFlatten_foldl]
  simp only [tplFlatten_nil, List.not_mem_nil, false_or]
  constructor
  · rintro ⟨e, he, hx⟩
    obtain ⟨⟨et, ep⟩, eo⟩ := e
    simp only [Prod.mk.injEq] at hx
    obtain ⟨h1, h2, h3⟩ := hx
    subst h1; subst h2; subst h3
    exact he
  · intro hm
    exact ⟨((t, p), o), hm, rfl⟩

/-- Claim C8: `set_callback` stores exactly the new observer (replacing any
previous one) and leaves the offset map, the last-commit timestamp, and the
configuration unchanged. -/
theorem set_callback_replaces (reg : AutoCommitRegistry) (cb : Nat) :
    (set_callback reg cb).inner.callback = some cb ∧
    (set_callback reg cb).inner.offsets = reg.inner.offsets ∧
    (set_callback reg cb).inner.last_commit_time = reg.inner.last_commit_time ∧
    (set_callback reg cb).commit_interval = reg.commit_interval ∧
    (set_callback reg cb).commit_mode = reg.commit_mode :=
  ⟨rfl, rfl, rfl, rfl, rfl⟩

/-- Claim C5: the explicit `commit` always resets `last_commit_time` to the
current instant, issues exactly the consumer commit with the translated map
and the configured mode, returns the commit result unmodified to the caller,
and never invokes the observer callback. -/
theorem commit_explicit_contract (reg : AutoCommitRegistry) (now : Nat)
    (oracle : KafkaResult) :
    (commit reg now oracle).2 = oracle ∧
    (commit reg now oracle).1.1.inner.last_commit_time = now ∧
    (commit reg now oracle).1.1.inner.offsets = reg.inner.offsets ∧
    (commit reg now oracle).1.1.inner.callback = reg.inner.callback ∧
    (commit reg now oracle).1.2 =
      [Event.consumerCommit (offset_map_to_tpl reg.inner.offsets)
        reg.commit_mode oracle] ∧
    observerCallCount (commit reg now oracle).1.2 = 0 :=
  ⟨rfl, rfl, rfl, rfl, rfl, rfl⟩

/-- Claim C2: `register_message` updates the map and then applies the
inclusive time gate: if `now - last_commit_time ≥ commit_interval` the
timestamp is reset to `now` and exactly one consumer commit is issued; if
the elapsed time is strictly smaller, no event occurs and the state changes
only by the map update. -/
theorem register_message_time_gate (reg : AutoCommitRegistry)
    (mid : String × Int × Int) (now : Nat) (oracle : KafkaResult)
    (_hmono : reg.inner.last_commit_time ≤ now) :
    (reg.commit_interval ≤ now - reg.inner.last_commit_time →
      (register_message reg mid now oracle).1.inner.last_commit_time = now ∧
      commitEventCount (register_message reg mid now oracle).2 = 1) ∧
    (now - reg.inner.last_commit_time < reg.commit_interval →
      (register_message reg mid now oracle).1 =
        { reg with inner := { reg.inner with
            offsets := mapInsert reg.inner.offsets (mid.1, mid.2.1) mid.2.2 } } ∧
      (register_message reg mid now oracle).2 = []) := by
  constructor
  · intro h1
    have hs : shouldFlush reg.commit_interval reg.inner.last_commit_time now
        = true := by
      simp [shouldFlush, h1]
    obtain ⟨ha, hb⟩ := maybe_commit_due_count
      { reg with inner := { reg.inner with
          offsets := mapInsert reg.inner.offsets (mid.1, mid.2.1) mid.2.2 } }
      now oracle hs
    constructor
    · show (maybe_commit _ now oracle).1.inner.last_commit_time = now
      rw [ha]
    · exact hb
  · intro h2
    have hs : shouldFlush reg.commit_interval reg.inner.last_commit_time now
        = false := by
      simp only [shouldFlush, decide_eq_false_iff_not]
      omega
    have heq := maybe_commit_eq_not_due
      { reg with inner := { reg.inner with
          offsets := mapInsert reg.inner.offsets (mid.1, mid.2.1) mid.2.2 } }
      now oracle hs
    constructor
    · show (maybe_commit _ now oracle).1 = _
      rw [heq]
    · show (maybe_commit _ now oracle).2 = _
      rw [heq]

/-- Witness for C2: with interval 3 and construction at 0, a registration at
instant 10 flushes once and resets the timer, while a registration at
instant 2 produces no event. -/
theorem register_message_time_gate_witness :
    ((register_message (AutoCommitRegistry.new 3 CommitMode.Async 0)
        ("a", 0, 5) 10 KafkaResult.ok).1.inner.last_commit_time = 10 ∧
      commitEventCount (register_message (AutoCommitRegistry.new 3 CommitMode.Async 0)
        ("a", 0, 5) 10 KafkaResult.ok).2 = 1) ∧
    (register_message (AutoCommitRegistry.new 3 CommitMode.Async 0)
        ("a", 0, 5) 2 KafkaResult.ok).2 = [] :=
  ⟨(register_message_time_gate (AutoCommitRegistry.new 3 CommitMode.Async 0)
      ("a", 0, 5) 10 KafkaResult.ok (by decide)).1 (by decide),
   ((register_message_time_gate (AutoCommitRegistry.new 3 CommitMode.Async 0)
      ("a", 0, 5) 2 KafkaResult.ok (by decide)).2 (by decide)).2⟩

/-- Claim C10: a freshly constructed registry has an empty offset map, no
observer callback, and `last_commit_time` equal to the construction instant;
hence a registration strictly less than one interval after construction
produces no flush. -/
theorem new_initial_state (T : Nat) (mode : CommitMode) (t0 : Nat)
    (mid : String × Int × Int) (now : Nat) (oracle : KafkaResult) :
    (AutoCommitRegistry.new T mode t0).inner.offsets = [] ∧
    (AutoCommitRegistry.new T mode t0).inner.callback = none ∧
    (AutoCommitRegistry.new T mode t0).inner.last_commit_time = t0 ∧
    (t0 ≤ now → now - t0 < T →
      (register_message (AutoCommitRegistry.new T mode t0) mid now oracle).2
        = []) := by
  refine ⟨rfl, rfl, rfl, fun _ h2 => ?_⟩
  have hs : shouldFlush T t0 now = false := by
    simp only [shouldFlush, decide_eq_false_iff_not]
    omega
  show (maybe_commit _ now oracle).2 = _
  exact congrArg Prod.snd (maybe_commit_eq_not_due _ now oracle hs)

/-- Witness for C10: interval 5, construction at 0, registration at 3 causes
no flush. -/
theorem new_initial_state_witness :
    (register_message (AutoCommitRegistry.new 5 CommitMode.Async 0)
      ("a", 0, 1) 3 KafkaResult.ok).2 = [] :=
  (new_initial_state 5 CommitMode.Async 0 ("a", 0, 1) 3 KafkaResult.ok).2.2.2
    (by decide) (by decide)

/-- Claim C6: when the time gate fires, a scheduled flush with a stored
observer invokes it exactly once, after the consumer commit, with the offset
map as of the flush and the commit result (success or error alike); with no
observer stored, the flush issues only the consumer commit and the result
reaches nobody. -/
theorem maybe_commit_observer_delivery (reg : AutoCommitRegistry) (now : Nat)
    (oracle : KafkaResult) (cb : Nat)
    (h : reg.commit_interval ≤ now - reg.inner.last_commit_time) :
    (reg.inner.callback = some cb →
      (maybe_commit reg now oracle).2 =
        [Event.consumerCommit (offset_map_to_tpl reg.inner.offsets)
           reg.commit_mode oracle,
         Event.observerCall cb reg.inner.offsets oracle]) ∧
    (reg.inner.callback = none →
      (maybe_commit reg now oracle).2 =
        [Event.consumerCommit (offset_map_to_tpl reg.inner.offsets)
           reg.commit_mode oracle]) := by
  have hs : shouldFlush reg.commit_interval reg.inner.last_commit_time now
      = true := by
    simp [shouldFlush, h]
  constructor
  · intro hcb
    rw [maybe_commit_eq_due_some reg now oracle cb hs hcb]
  · intro hcb
    rw [maybe_commit_eq_due_none reg now oracle hs hcb]

/-- Witness for C6: a due flush on a registry with observer 0 and an empty
map emits the consumer commit followed by exactly one observer call carrying
the commit error. -/
theorem maybe_commit_observer_delivery_witness :
    (maybe_commit
      { inner := { offsets := [], last_commit_time := 0, callback := some 0 },
        commit_interval := 2, commit_mode := CommitMode.Sync }
      2 (KafkaResult.err ⟨3⟩)).2 =
      [Event.consumerCommit [] CommitMode.Sync (KafkaResult.err ⟨3⟩),
       Event.observerCall 0 [] (KafkaResult.err ⟨3⟩)] :=
  (maybe_commit_observer_delivery
    { inner := { offsets := [], last_commit_time := 0, callback := some 0 },
      commit_interval := 2, commit_mode := CommitMode.Sync }
    2 (KafkaResult.err ⟨3⟩) 0 (by decide)).1 rfl

/-- Claim C7: a failed scheduled commit still sets `last_commit_time` to the
flush instant (no rollback) and issues exactly one commit call (no retry);
after it, the number of commits a later `maybe_commit` issues is governed
purely by the time elapsed since that flush instant. -/
theorem failed_flush_no_rollback (reg : AutoCommitRegistry) (now : Nat)
    (e : KafkaError)
    (h : reg.commit_interval ≤ now - reg.inner.last_commit_time) :
    (maybe_commit reg now (KafkaResult.err e)).1.inner.last_commit_time = now ∧
    commitEventCount (maybe_commit reg now (KafkaResult.err e)).2 = 1 ∧
    (∀ (now2 : Nat) (oracle2 : KafkaResult),
      commitEventCount
        (maybe_commit (maybe_commit reg now (KafkaResult.err e)).1
          now2 oracle2).2 =
        if reg.commit_interval ≤ now2 - now then 1 else 0) := by
  have hs : shouldFlush reg.commit_interval reg.inner.last_commit_time now
      = true := by
    simp [shouldFlush, h]
  obtain ⟨ha, hb⟩ := maybe_commit_due_count reg now (KafkaResult.err e) hs
  refine ⟨by rw [ha], hb, fun now2 oracle2 => ?_⟩
  rw [ha]
  by_cases h2 : reg.commit_interval ≤ now2 - now
  · rw [if_pos h2]
    have hs2 : shouldFlush reg.commit_interval now now2 = true := by
      simp [shouldFlush, h2]
    exact (maybe_commit_due_count _ now2 oracle2 hs2).2
  · rw [if_neg h2]
    have hs2 : shouldFlush reg.commit_interval now now2 = false := by
      simp only [shouldFlush, decide_eq_false_iff_not]
      omega
    rw [maybe_commit_eq_not_due _ now2 oracle2 hs2]
    rfl

/-- Witness for C7: interval 2, a failed flush at instant 2 resets the timer
to 2, and a `maybe_commit` at instant 3 (elapsed 1 < 2) issues no commit. -/
theorem failed_flush_no_rollback_witness :
    (maybe_commit
      { inner := { offsets := [], last_commit_time := 0, callback := none },
        commit_interval := 2, commit_mode := CommitMode.Async }
      2 (KafkaResult.err ⟨1⟩)).1.inner.last_commit_time = 2 ∧
    commitEventCount
      (maybe_commit
        (maybe_commit
          { inner := { offsets := [], last_commit_time := 0, callback := none },
            commit_interval := 2, commit_mode := CommitMode.Async }
          2 (KafkaResult.err ⟨1⟩)).1 3 KafkaResult.ok).2 = 0 :=
  ⟨(failed_flush_no_rollback
      { inner := { offsets := [], last_commit_time := 0, callback := none },
        commit_interval := 2, commit_mode := CommitMode.Async }
      2 ⟨1⟩ (by decide)).1,
   (failed_flush_no_rollback
      { inner := { offsets := [], last_commit_time := 0, callback := none },
        commit_interval := 2, commit_mode := CommitMode.Async }
      2 ⟨1⟩ (by decide)).2.2 3 KafkaResult.ok⟩

/-! ### Lemmas about `mapInsert` -/

theorem keysUnique_mapInsert (m : OffsetMap) (k : String × Int) (v : Int)
    (h : keysUnique m) : keysUnique (mapInsert m k v) := by
  unfold mapInsert
  by_cases hany : m.any (fun e => e.1 == k) = true
  · rw [if_pos hany]
    unfold keysUnique at h ⊢
    rw [List.map_map]
    have hfst : ∀ e ∈ m,
        (Prod.fst ∘ fun e2 => if e2.1 == k then (k, v) else e2) e = Prod.fst e := by
      intro e _
      by_cases hbe : (e.1 == k) = true
      · simp only [Function.comp_apply, hbe, if_true]
        exact (beq_iff_eq.mp hbe).symm
      · have hne : e.1 ≠ k := by simpa using hbe
        simp [Function.comp_apply, hne]
    rw [List.map_congr_left hfst]
    exact h
  · rw [if_neg hany]
    unfold keysUnique at h ⊢
    rw [List.map_append]
    have hk : k ∉ m.map Prod.fst := by
      intro hmem
      obtain ⟨e, he, hke⟩ := List.mem_map.mp hmem
      apply hany
      exact List.any_eq_true.mpr ⟨e, he, beq_iff_eq.mpr hke⟩
    simp [List.nodup_append, h, hk]

theorem filter_bump (m : OffsetMap) (k : String × Int) (v : Int)
    (h : keysUnique m) :
    (m.map (fun e => if e.1 == k then (k, v) else e)).filter
        (fun e2 => e2.1 == k) =
      if m.any (fun e => e.1 == k) then [(k, v)] else [] := by
  induction m with
  | nil => rfl
  | cons e m ih =>
      have hkeys : e.1 ∉ m.map Prod.fst ∧ (m.map Prod.fst).Nodup := by
        unfold keysUnique at h
        rw [List.map_cons, List.nodup_cons] at h
        exact h
      by_cases hek : (e.1 == k) = true
      · have hek2 : e.1 = k := beq_iff_eq.mp hek
        have htailnone : ∀ e2 ∈ m, ¬ (e2.1 == k) = true := by
          intro e2 he2 hbe
          apply hkeys.1
          rw [hek2, ← beq_iff_eq.mp hbe]
          exact List.mem_map.mpr ⟨e2, he2, rfl⟩
        have htailmap : m.map (fun e2 => if e2.1 == k then (k, v) else e2) = m := by
          have hid : ∀ e2 ∈ m, (if e2.1 == k then (k, v) else e2) = e2 := by
            intro e2 he2
            have hne : e2.1 ≠ k := by simpa using htailnone e2 he2
            simp [hne]
          calc m.map (fun e2 => if e2.1 == k then (k, v) else e2)
              = m.map id := List.map_congr_left hid
            _ = m := List.map_id m
        have htailfilter : m.filter (fun e2 => e2.1 == k) = [] := by
          rw [List.filter_eq_nil_iff]
          intro e2 he2
          exact htailnone e2 he2
        simp only [List.map_cons, hek, if_true, List.filter_cons, htailmap,
          htailfilter, List.any_cons, hek, Bool.true_or, beq_self_eq_true]
      · have htail := ih hkeys.2
        rw [Bool.not_eq_true] at hek
        simp only [List.map_cons, hek, Bool.false_eq_true, if_false,
          List.filter_cons, hek, List.any_cons, Bool.false_or]
        exact htail

theorem filter_mapInsert (m : OffsetMap) (k : String × Int) (v : Int)
    (h : keysUnique m) :
    (mapInsert m k v).filter (fun e2 => e2.1 == k) = [(k, v)] := by
  unfold mapInsert
  by_cases hany : m.any (fun e => e.1 == k) = true
  · rw [if_pos hany, filter_bump m k v h, if_pos hany]
  · rw [if_neg hany, List.filter_append]
    have hnone : m.filter (fun e2 => e2.1 == k) = [] := by
      rw [List.filter_eq_nil_iff]
      intro e2 he2 hbe
      exact hany (List.any_eq_true.mpr ⟨e2, he2, hbe⟩)
    rw [hnone]
    simp

/-- Claim C4: the offset map keeps at most one entry per (topic, partition)
key across registrations, and registering the same key with offset `o1` and
then `o2` leaves the map holding exactly `o2` for that key, whether or not
`o2` exceeds `o1`. -/
theorem register_message_overwrite (reg : AutoCommitRegistry) (t : String)
    (p o1 o2 : Int) (now1 now2 : Nat) (or1 or2 : KafkaResult)
    (h : keysUnique reg.inner.offsets) :
    keysUnique (register_message reg (t, p, o1) now1 or1).1.inner.offsets ∧
    keysUnique (register_message (register_message reg (t, p, o1) now1 or1).1
        (t, p, o2) now2 or2).1.inner.offsets ∧
    (register_message (register_message reg (t, p, o1) now1 or1).1
        (t, p, o2) now2 or2).1.inner.offsets.filter
        (fun e2 => e2.1 == (t, p)) = [((t, p), o2)] := by
  have h1 := register_message_offsets reg (t, p, o1) now1 or1
  have hu1 : keysUnique (register_message reg (t, p, o1) now1 or1).1.inner.offsets := by
    rw [h1]
    exact keysUnique_mapInsert _ _ _ h
  have h2 := register_message_offsets (register_message reg (t, p, o1) now1 or1).1
    (t, p, o2) now2 or2
  refine ⟨hu1, ?_, ?_⟩
  · rw [h2]
    exact keysUnique_mapInsert _ _ _ hu1
  · rw [h2]
    exact filter_mapInsert _ _ _ hu1

/-- Witness for C4: starting from a single-entry map, registering key
("t", 0) with offset 5 and then 7 leaves exactly the entry (("t", 0), 7)
under that key. -/
theorem register_message_overwrite_witness :
    (register_message
      (register_message
        { inner := { offsets := [(("t", 0), 1)], last_commit_time := 0, callback := none },
          commit_interval := 1000, commit_mode := CommitMode.Sync }
        ("t", 0, 5) 0 KafkaResult.ok).1
      ("t", 0, 7) 0 KafkaResult.ok).1.inner.offsets.filter
      (fun e2 => e2.1 == ("t", 0)) = [(("t", 0), 7)] :=
  (register_message_overwrite
    { inner := { offsets := [(("t", 0), 1)], last_commit_time := 0, callback := none },
      commit_interval := 1000, commit_mode := CommitMode.Sync }
    "t" 0 5 7 0 0 KafkaResult.ok KafkaResult.ok
    (by unfold keysUnique; decide)).2.2

/-! ### Error provenance and teardown -/

theorem maybe_commit_eventResult (reg : AutoCommitRegistry) (now : Nat)
    (oracle : KafkaResult) :
    ∀ ev ∈ (maybe_commit reg now oracle).2, eventResult ev = oracle := by
  intro ev hev
  by_cases hs : shouldFlush reg.commit_interval reg.inner.last_commit_time now
      = true
  · cases hcb : reg.inner.callback with
    | none =>
        rw [maybe_commit_eq_due_none reg now oracle hs hcb] at hev
        simp only [List.mem_singleton] at hev
        rw [hev]
        rfl
    | some cb =>
        rw [maybe_commit_eq_due_some reg now oracle cb hs hcb] at hev
        simp only [List.mem_cons, List.mem_singleton, List.not_mem_nil,
          or_false] at hev
        rcases hev with hev | hev <;> rw [hev] <;> rfl
  · rw [Bool.not_eq_true] at hs
    rw [maybe_commit_eq_not_due reg now oracle hs] at hev
    exact absurd hev (List.not_mem_nil ev)

/-- Claim C9: the map-to-store translation and the timer check are total pure
functions; no operation of the component creates an error of its own — every
event a registry operation emits carries exactly the result of the underlying
consumer commit call, and the explicit commit returns exactly that result. -/
theorem no_internal_errors (reg : AutoCommitRegistry) (mid : String × Int × Int)
    (now : Nat) (oracle : KafkaResult) :
    (∀ ev ∈ (maybe_commit reg now oracle).2, eventResult ev = oracle) ∧
    (∀ ev ∈ (register_message reg mid now oracle).2, eventResult ev = oracle) ∧
    (commit reg now oracle).2 = oracle ∧
    (∀ ev ∈ (commit reg now oracle).1.2, eventResult ev = oracle) ∧
    (shouldFlush reg.commit_interval reg.inner.last_commit_time now = true ∨
     shouldFlush reg.commit_interval reg.inner.last_commit_time now = false) := by
  refine ⟨maybe_commit_eventResult reg now oracle, ?_, rfl, ?_, ?_⟩
  · intro ev hev
    exact maybe_commit_eventResult _ now oracle ev hev
  · intro ev hev
    have hev2 : ev ∈ [Event.consumerCommit (offset_map_to_tpl reg.inner.offsets)
        reg.commit_mode oracle] := hev
    rw [List.mem_singleton] at hev2
    rw [hev2]
    rfl
  · rcases Bool.eq_false_or_eq_true
        (shouldFlush reg.commit_interval reg.inner.last_commit_time now) with
      hb | hb
    · exact Or.inl hb
    · exact Or.inr hb

/-- Witness for C9: a due flush with a broker error emits only events that
carry that very error. -/
theorem no_internal_errors_witness :
    eventResult (Event.consumerCommit (offset_map_to_tpl [])
      CommitMode.Sync (KafkaResult.err ⟨7⟩)) = KafkaResult.err ⟨7⟩ :=
  (no_internal_errors
    { inner := { offsets := [], last_commit_time := 0, callback := none },
      commit_interval := 0, commit_mode := CommitMode.Sync }
    ("a", 0, 1) 0 (KafkaResult.err ⟨7⟩)).1
    (Event.consumerCommit (offset_map_to_tpl []) CommitMode.Sync
      (KafkaResult.err ⟨7⟩))
    (by decide)

/-- Claim C1 (code behavior at the failing input): the `Drop` impl sits on the
clonable handle, not on the shared inner state, so the teardown commit runs
once per dropped handle clone — two clones of one registry produce two
teardown commit calls, not one — and each drop discards the commit result. -/
theorem drop_commit_once_per_handle :
    commitEventCount
      (dropAllHandles (AutoCommitRegistry.new 100 CommitMode.Async 0) 2 50
        KafkaResult.ok).2 = 2 ∧
    ∀ (reg : AutoCommitRegistry) (now : Nat) (oracle : KafkaResult) (n : Nat),
      commitEventCount (dropAllHandles reg n now oracle).2 = n := by
  have hgen : ∀ (n : Nat) (reg : AutoCommitRegistry) (now : Nat)
      (oracle : KafkaResult),
      commitEventCount (dropAllHandles reg n now oracle).2 = n := by
    intro n
    induction n with
    | zero => intro reg now oracle; rfl
    | succ k ih =>
        intro reg now oracle
        show commitEventCount
          ((dropHandle reg now oracle).2 ++
            (dropAllHandles (dropHandle reg now oracle).1 k now oracle).2) = k + 1
        have happ : ∀ (a b : List Event),
            commitEventCount (a ++ b) = commitEventCount a + commitEventCount b := by
          intro a b
          unfold commitEventCount
          rw [List.filter_append, List.length_append]
        rw [happ, ih (dropHandle reg now oracle).1 now oracle]
        have h1 : commitEventCount (dropHandle reg now oracle).2 = 1 := rfl
        rw [h1]
        exact Nat.add_comm 1 k
  exact ⟨hgen 2 _ 50 KafkaResult.ok, fun reg now oracle n => hgen n reg now oracle⟩
